import Mathlib

/-!
Verification of the two kernels of this repository against their
natural-language specification:

* the fused multi-tensor Adam optimizer update
  (`paddle/phi/kernels/gpu/multi_tensor_adam_kernel.cu`), and
* the oneDNN batched matmul forward / gradient kernels
  (the unnamed `matmul_mkldnn` translation unit).

The embedding is shallow: floating point arithmetic of the wide (`MT`)
compute type is modelled over `ℚ`, with the device square root kept
abstract as a function parameter `sq : ℚ → ℚ` (the kernels never rely on
any algebraic property of `sqrt`); tensors are `List ℚ` (flat element
vectors) or row-major matrices; CUDA grid/block indexing is modelled by
explicit index sets; fallible paths return `Except`.
-/

namespace Spec2Proof

/-! ## Multi-tensor Adam: per-element update

`adamElementUpdate` is the body of the second unrolled loop of
`CudaKernelFunctor::operator()` (the arithmetic applied to one element,
already loaded into wide-precision registers).  `mode = false` is the
plain branch, `mode = true` the decoupled weight-decay branch; both are
transcribed literally, including the form `p += (m/denom) * (-(lr/(1-beta1_pow)))`
used by the source. -/
def adamElementUpdate (sq : ℚ → ℚ) (mode : Bool)
    (beta1 beta2 epsilon lr decay beta1_pow beta2_pow p g m v : ℚ) :
    ℚ × ℚ × ℚ :=
  if mode = false then
    let m' := beta1 * m + (1 - beta1) * g
    let v' := beta2 * v + (1 - beta2) * g * g
    let denom := sq v' / sq (1 - beta2_pow) + epsilon
    (m', v', p + (m' / denom) * (-(lr / (1 - beta1_pow))))
  else
    let p0 := p * (1 - lr * decay)
    let m' := beta1 * m + (1 - beta1) * g
    let v' := beta2 * v + (1 - beta2) * g * g
    let denom := sq v' / sq (1 - beta2_pow) + epsilon
    (m', v', p0 + (m' / denom) * (-(lr / (1 - beta1_pow))))

/-- One element of one tensor-group position: `(p, g, m, v, mp)` —
parameter, gradient, first moment, second moment, master-parameter slot. -/
abbrev AdamElem := ℚ × ℚ × ℚ × ℚ × ℚ

/-- Per-element load/compute/store of `CudaKernelFunctor::operator()`:
the parameter is loaded from the master copy when `multi_precision` is
set, the updated parameter is stored back to the parameter and (when
`multi_precision`) to the master copy; the gradient slot is read-only. -/
def updElem (sq : ℚ → ℚ) (mode multi_precision : Bool)
    (beta1 beta2 epsilon lr decay beta1_pow beta2_pow : ℚ)
    (e : AdamElem) : AdamElem :=
  let p := e.1
  let g := e.2.1
  let m := e.2.2.1
  let v := e.2.2.2.1
  let mp := e.2.2.2.2
  let pl := if multi_precision then mp else p
  let r := adamElementUpdate sq mode beta1 beta2 epsilon lr decay
      beta1_pow beta2_pow pl g m v
  (r.2.2, g, r.1, r.2.1, if multi_precision then r.2.2 else mp)

/-- Modelled from the spec: number of compute groups (chunks) a tensor of
`n` elements is divided into at chunk size `cgs` (`⌈n / cgs⌉`); the
chunk-partition bookkeeping lives in the utility header
`multi_tensor_adam_utility_kernel.cuh`, which is not part of the sources,
so it is taken from the spec's compute-group-partition description
("each tensor's flat element range is divided into fixed-size chunks …
last chunk of a tensor may be partial"). -/
def numChunks (cgs n : ℕ) : ℕ := (n + cgs - 1) / cgs

/-- The compute groups of a flat element list: chunk `c` holds the
elements at positions `[c*cgs, c*cgs + cgs) ∩ [0, length)`. -/
def chunked (cgs : ℕ) (l : List α) : List (List α) :=
  (List.range (numChunks cgs l.length)).map (fun c => (l.drop (c * cgs)).take cgs)

/-- Apply `f` to every element, traversing the list chunk by chunk the
way the compute-group partition does. -/
def processChunked (cgs : ℕ) (f : α → β) (l : List α) : List β :=
  ((chunked cgs l).map (List.map f)).flatten

/-! ## Multi-tensor Adam: per-block access pattern of `CudaKernelFunctor`

One CUDA block serves one compute group.  After the base pointers are
advanced by `compute_group_idx * compute_group_size` and
`n -= compute_group_idx * compute_group_size`, all `B = blockDim.x`
threads run the strided loop

```
for (i_start = 0; i_start < n && i_start < compute_group_size;
     i_start += blockDim.x * PARALLEL_SIZE)
  for (ii = 0; ii < PARALLEL_SIZE; ii++) {
    i = i_start + threadIdx.x + ii * blockDim.x;
    if (i < n && i < compute_group_size) { read / write element i; }
  }
```

`accessTriples` collects every `(k, tid, ii)` for which the guard lets
element `i = accessIdx` be read and written (`k` counts outer-loop
iterations, so `i_start = k * (PARALLEL_SIZE * B)`). -/

/-- `PARALLEL_SIZE` of the kernel. -/
def PARALLEL_SIZE : ℕ := 4

/-- The element offset, within the compute group, that thread `tid`
touches on outer iteration `k` at unroll position `ii`. -/
def accessIdx (B k tid ii : ℕ) : ℕ := k * (PARALLEL_SIZE * B) + tid + ii * B

/-- All loop states `(k, tid, ii)` whose guarded body executes, for a
block of `B` threads working on a compute group of size `cgs` over a
tensor with `r` elements remaining from the group's start.  The outer
`Finset.range (min r cgs)` on `k` is only a bounding box; the filter
holds the actual loop conditions. -/
def accessTriples (B cgs r : ℕ) : Finset (ℕ × ℕ × ℕ) :=
  ((Finset.range (min r cgs)) ×ˢ (Finset.range B) ×ˢ (Finset.range PARALLEL_SIZE)).filter
    (fun t => t.1 * (PARALLEL_SIZE * B) < r ∧ t.1 * (PARALLEL_SIZE * B) < cgs ∧
      accessIdx B t.1 t.2.1 t.2.2 < r ∧ accessIdx B t.1 t.2.1 t.2.2 < cgs)

/-- The set of element positions (relative to the whole tensor) that the
block serving compute group `c` of a tensor of `n` elements reads and
writes: the guard admits exactly the chunk's in-range positions. -/
def chunkCover (cgs n c : ℕ) : Finset ℕ :=
  (Finset.range (min (n - c * cgs) cgs)).image (fun j => c * cgs + j)

/-! ## Multi-tensor Adam: whole-kernel model (`MultiTensorAdamKernel`) -/

/-- Inputs of `MultiTensorAdamKernel`: the co-indexed tensor lists (each
tensor a flat `List ℚ`), the single-element scalar state and the learning
rate.  `masterParam` is consulted only when `multi_precision` is set. -/
structure AdamIn where
  params : List (List ℚ)
  grads : List (List ℚ)
  moments1 : List (List ℚ)
  moments2 : List (List ℚ)
  masterParam : List (List ℚ)
  beta1_pow : ℚ
  beta2_pow : ℚ
  lr : ℚ
deriving DecidableEq, Repr

/-- Outputs of `MultiTensorAdamKernel`.  An output that the kernel leaves
unwritten is `none` (`master_param_out` on the skip path,
`beta?_pow_out` when `use_global_beta_pow` is set). -/
structure AdamOut where
  params_out : List (List ℚ)
  moments1_out : List (List ℚ)
  moments2_out : List (List ℚ)
  master_param_out : Option (List (List ℚ))
  beta1_pow_out : Option ℚ
  beta2_pow_out : Option ℚ
deriving DecidableEq, Repr

/-- Resolution of the optional `skip_update` tensor: when present it must
hold exactly one element (`PADDLE_ENFORCE_EQ(skip_update->numel(), 1, …)`),
whose value is the flag; when absent the flag is `false`. -/
def resolveSkip : Option (List Bool) → Except String Bool
  | none => .ok false
  | some l =>
      if l.length = 1 then .ok l.headI
      else .error "Input(SkipUpdate) size must be 1"

/-- The per-tensor element phase: the tensor's elements (zipped across
the co-indexed lists, missing positions defaulting to `0`) are traversed
compute group by compute group and updated by `updElem`. -/
def updTensor (sq : ℚ → ℚ) (mode multi_precision : Bool)
    (beta1 beta2 epsilon lr decay beta1_pow beta2_pow : ℚ) (cgs : ℕ)
    (p g m v mp : List ℚ) : List AdamElem :=
  let es := (List.range p.length).map
    (fun i => ((p.getD i 0, g.getD i 0, m.getD i 0, v.getD i 0, mp.getD i 0) : AdamElem))
  processChunked cgs
    (updElem sq mode multi_precision beta1 beta2 epsilon lr decay beta1_pow beta2_pow) es

/-- Shallow model of `MultiTensorAdamKernel` (GPU): resolve and act on
`skip_update` (short-circuiting whole-tensor copies before any
partitioning), otherwise run the compute-group update over every tensor
and finally, unless `use_global_beta_pow`, write
`beta?_pow_out := beta? * beta?_pow` from the *input* beta powers
(`UpdateBetaPow`). -/
def multiTensorAdam (sq : ℚ → ℚ) (skip_update : Option (List Bool))
    (beta1 beta2 epsilon : ℚ) (cgs : ℕ) (weight_decay : ℚ)
    (mode multi_precision use_global_beta_pow : Bool) (inp : AdamIn) :
    Except String AdamOut :=
  match resolveSkip skip_update with
  | .error e => .error e
  | .ok true =>
      -- skip_update=true: verbatim copies of params/moments1/moments2 and
      -- of the beta-pow scalars; master_param_out is not written.
      .ok { params_out := inp.params
            moments1_out := inp.moments1
            moments2_out := inp.moments2
            master_param_out := none
            beta1_pow_out := some inp.beta1_pow
            beta2_pow_out := some inp.beta2_pow }
  | .ok false =>
      let upd := fun t => updTensor sq mode multi_precision beta1 beta2 epsilon
        inp.lr weight_decay inp.beta1_pow inp.beta2_pow cgs
        (inp.params.getD t []) (inp.grads.getD t []) (inp.moments1.getD t [])
        (inp.moments2.getD t []) (inp.masterParam.getD t [])
      let L := inp.params.length
      .ok { params_out := (List.range L).map (fun t => (upd t).map (·.1))
            moments1_out := (List.range L).map (fun t => (upd t).map (·.2.2.1))
            moments2_out := (List.range L).map (fun t => (upd t).map (·.2.2.2.1))
            master_param_out :=
              if multi_precision then
                some ((List.range L).map (fun t => (upd t).map (·.2.2.2.2)))
              else none
            beta1_pow_out :=
              if use_global_beta_pow then none else some (beta1 * inp.beta1_pow)
            beta2_pow_out :=
              if use_global_beta_pow then none else some (beta2 * inp.beta2_pow) }

/-! ## MatMul: matrices, the oneDNN handler, forward and gradient -/

/-- A dynamically shaped row-major matrix of rationals.  `entry` is total
(a read outside `rows × cols` still yields a value), matching raw-pointer
access in the source; theorems only constrain in-range entries. -/
structure RMat where
  rows : ℕ
  cols : ℕ
  entry : ℕ → ℕ → ℚ

/-- Mathematical matrix product (reference semantics; the contraction
length is the left operand's width). -/
def matMul (A B : RMat) : RMat :=
  ⟨A.rows, B.cols, fun i j => ∑ k ∈ Finset.range A.cols, A.entry i k * B.entry k j⟩

/-- Mathematical transpose (reference semantics). -/
def tr (A : RMat) : RMat := ⟨A.cols, A.rows, fun i j => A.entry j i⟩

/-- `tr` applied when the flag is set. -/
def trB (b : Bool) (A : RMat) : RMat := if b then tr A else A

/-- Equality of two matrices as tensors: same shape and same entries at
every in-range position. -/
def matEqOn (A B : RMat) : Prop :=
  A.rows = B.rows ∧ A.cols = B.cols ∧
    ∀ i < A.rows, ∀ j < A.cols, A.entry i j = B.entry i j

instance matEqOnDecidable (A B : RMat) : Decidable (matEqOn A B) := by
  unfold matEqOn; infer_instance

/-- The flat row-major buffer backing a matrix, as the source's raw
pointers see it. -/
def flatten (A : RMat) : ℕ → ℚ := fun idx => A.entry (idx / A.cols) (idx % A.cols)

/-- A single-batch strided matmul as the oneDNN primitive computes it
from two memory descriptors: logical `X[i,k] = xflat[i*sx1 + k*sx2]`,
logical `Y[k,j] = yflat[k*sy1 + j*sy2]`, output `M × N`, contraction
length `K`. -/
def stridedMatMul (xflat yflat : ℕ → ℚ) (M N K sx1 sx2 sy1 sy2 : ℕ) : RMat :=
  ⟨M, N, fun i j =>
    ∑ k ∈ Finset.range K, xflat (i * sx1 + k * sx2) * yflat (k * sy1 + j * sy2)⟩

/-- `MatMulMKLDNNHandler` (single batch): per the constructor,
`M = mat_dim_x.height_`, `K = mat_dim_x.width_`, `N = mat_dim_y.width_`
(a descriptor built with `trans` swaps height and width), and the last
two stride components are `{K, 1}` (`x`, untransposed) vs `{1, M}`
(`x`, transposed), `{N, 1}` vs `{1, K}` for `y` — transposition is pure
stride selection, the buffers are never reordered. -/
def handlerMatMul (x : RMat) (trans_x : Bool) (y : RMat) (trans_y : Bool) : RMat :=
  let M := if trans_x then x.cols else x.rows
  let K := if trans_x then x.rows else x.cols
  let N := if trans_y then y.rows else y.cols
  stridedMatMul (flatten x) (flatten y) M N K
    (if trans_x then 1 else K) (if trans_x then M else 1)
    (if trans_y then 1 else N) (if trans_y then K else 1)

/-- The `dX` gradient as dispatched by `MatMulGradMKLDNNKernel::Compute`:
the four `(transpose_x, transpose_y)` branches select operands and
transpose flags for `ExecuteMatMulGrad`, whose primitive is
`handlerMatMul` (2-D operands, `need_combine = false`). -/
def matmulGradDX (tx ty : Bool) (x y dout : RMat) : RMat :=
  if tx && ty then handlerMatMul y true dout true
  else if tx then handlerMatMul y false dout true
  else if ty then handlerMatMul dout false y false
  else handlerMatMul dout false y true

/-- The `dY` gradient as dispatched by `MatMulGradMKLDNNKernel::Compute`
(same four branches as `matmulGradDX`). -/
def matmulGradDY (tx ty : Bool) (x y dout : RMat) : RMat :=
  if tx && ty then handlerMatMul dout true x true
  else if tx then handlerMatMul x false dout false
  else if ty then handlerMatMul dout true x false
  else handlerMatMul x true dout false

/-- The spec's four-case `dX` table (for comparison with the code's
dispatch).  Row `(tx, ty)`, cell written with reference `matMul`/`tr`. -/
def dxTable (tx ty : Bool) (x y dout : RMat) : RMat :=
  match tx, ty with
  | false, false => matMul dout (tr y)
  | false, true => matMul dout y
  | true, false => matMul y (tr dout)
  | true, true => matMul (tr y) (tr dout)

/-- The spec's four-case `dY` table as *amended*: the `(F,T)` cell is
`dOutᵗ · X` (the code's — and the mathematically correct — value), not
the spec's `Xᵗ · dOut`. -/
def dyTableAmended (tx ty : Bool) (x y dout : RMat) : RMat :=
  match tx, ty with
  | false, false => matMul (tr x) dout
  | false, true => matMul (tr dout) x
  | true, false => matMul x dout
  | true, true => matMul (tr dout) (tr x)

/-- The spec's original `(F,T)` `dY` cell, `Xᵗ · dOut`, kept for the
refutation. -/
def dySpecFT (x dout : RMat) : RMat := matMul (tr x) dout

/-- Fatal entry errors of the two matmul kernels.  Each constructor
carries the offending value(s) reported by the corresponding
`PADDLE_ENFORCE` message. -/
inductive MatmulErr where
  | headNumber (received : ℤ)
  | nullOutput
  | broadcast (pos : ℕ) (xdim ydim : ℤ)
deriving DecidableEq, Repr

/-- The `head_number` entry check shared by `MatMulV2MKLDNNKernel::Compute`
and `MatMulGradMKLDNNKernel::Compute`: if the attribute is present its
value must be 1, otherwise the kernel aborts with
"oneDNN matmul doesn't support multiple heads. Expected head_number=1.
But received `head_number` is %d" carrying the received value. -/
def headNumberCheck (head_number : Option ℤ) : Except MatmulErr Unit :=
  match head_number with
  | none => .ok ()
  | some v => if v = 1 then .ok () else .error (.headNumber v)

/-- Shallow model of `MatMulGradMKLDNNKernel::Compute` on the 2-D path
(operands already in matrix form, `need_combine = false`): the
`head_number` check runs first; both `ExecuteMatMulGrad` calls are then
issued unconditionally — an absent `dX` or `dY` output is dereferenced
by `AcquireDstMemory`, modelled as the `nullOutput` error, not skipped. -/
def matMulGradCompute (head_number : Option ℤ) (tx ty : Bool)
    (x y dout : RMat) (dxPresent dyPresent : Bool) :
    Except MatmulErr (RMat × RMat) :=
  match headNumberCheck head_number with
  | .error e => .error e
  | .ok _ =>
      if dxPresent && dyPresent then
        .ok (matmulGradDX tx ty x y dout, matmulGradDY tx ty x y dout)
      else .error .nullOutput

/-! ## MatMul forward: `CalculateMatrixDims` and the kernel entry -/

/-- `x_bd_dims` of `MatMulV2MKLDNNKernel::CalculateMatrixDims`: start
from `ndims` ones; a 1-D `x` lands in the trailing slot, a 2-D `x` in
the trailing two, a higher-rank `x` is right-aligned. -/
def buildXbd (ndims : ℕ) (x : List ℤ) : List ℤ :=
  if x.length = 1 then (List.replicate ndims (1 : ℤ)).set (ndims - 1) (x.getD 0 1)
  else if x.length = 2 then
    (((List.replicate ndims (1 : ℤ)).set (ndims - 1) (x.getD 1 1)).set (ndims - 2)
      (x.getD 0 1))
  else List.replicate (ndims - x.length) (1 : ℤ) ++ x

/-- `y_bd_dims` of `CalculateMatrixDims`: as `buildXbd` except that a
1-D `y` lands in the *second-to-last* slot (the K dimension). -/
def buildYbd (ndims : ℕ) (y : List ℤ) : List ℤ :=
  if y.length = 1 then (List.replicate ndims (1 : ℤ)).set (ndims - 2) (y.getD 0 1)
  else if y.length = 2 then
    (((List.replicate ndims (1 : ℤ)).set (ndims - 1) (y.getD 1 1)).set (ndims - 2)
      (y.getD 0 1))
  else List.replicate (ndims - y.length) (1 : ℤ) ++ y

/-- The broadcast-validation loop of `CalculateMatrixDims`, iterating
`i = pos, pos+1, …` for `fuel` steps: each position must satisfy
`x_bd_dims[i] == y_bd_dims[i] || x_bd_dims[i] == 1 || y_bd_dims[i] == 1`
(else the enforce fires, reporting `i` and both sizes), and on success
`out_dims[i] = max(x_bd_dims[i], y_bd_dims[i])`. -/
def rbAux (xbd ybd : List ℤ) (pos : ℕ) : ℕ → List ℤ → Except MatmulErr (List ℤ)
  | 0, outd => .ok outd
  | fuel + 1, outd =>
      if xbd.getD pos 1 = ybd.getD pos 1 ∨ xbd.getD pos 1 = 1 ∨ ybd.getD pos 1 = 1 then
        rbAux xbd ybd (pos + 1) fuel
          (outd.set pos (max (xbd.getD pos 1) (ybd.getD pos 1)))
      else .error (.broadcast pos (xbd.getD pos 1) (ybd.getD pos 1))

/-- `ndims` of `MatMulV2MKLDNNKernel::Compute`:
`max(x_dims.size(), y_dims.size())` clamped below by 3. -/
def bdRank (x_dims y_dims : List ℤ) : ℕ := max (max x_dims.length y_dims.length) 3

/-- `MatMulV2MKLDNNKernel::CalculateMatrixDims`: build the two broadcast
dimension vectors; only when the output is not fused *and* both inputs
have rank > 2 are the leading dims validated and `out` resized to the
element-wise max — otherwise `out` is left untouched. -/
def calculateMatrixDims (outputFused : Bool) (x_dims y_dims out_dims : List ℤ) :
    Except MatmulErr (List ℤ × List ℤ × List ℤ) :=
  if ¬outputFused ∧ 2 < x_dims.length ∧ 2 < y_dims.length then
    match rbAux (buildXbd (bdRank x_dims y_dims) x_dims)
        (buildYbd (bdRank x_dims y_dims) y_dims) 0
        (bdRank x_dims y_dims - 2) out_dims with
    | .error e => .error e
    | .ok od => .ok (buildXbd (bdRank x_dims y_dims) x_dims,
        buildYbd (bdRank x_dims y_dims) y_dims, od)
  else .ok (buildXbd (bdRank x_dims y_dims) x_dims,
    buildYbd (bdRank x_dims y_dims) y_dims, out_dims)

/-- Incompatibility of the two broadcast dimension vectors at some
leading position: sizes differ and neither is 1. -/
def BroadcastIncompatAt (xbd ybd : List ℤ) (i : ℕ) : Prop :=
  ¬(xbd.getD i 1 = ybd.getD i 1 ∨ xbd.getD i 1 = 1 ∨ ybd.getD i 1 = 1)

instance broadcastIncompatAtDecidable (xbd ybd : List ℤ) (i : ℕ) :
    Decidable (BroadcastIncompatAt xbd ybd i) := by
  unfold BroadcastIncompatAt; infer_instance

/-- Shallow model of the entry of `MatMulV2MKLDNNKernel::Compute`: the
`head_number` check runs first and aborts before any shape work; then
`CalculateMatrixDims` validates/resizes.  (The subsequent primitive
execution is not needed by the claims on this kernel.) -/
def matMulV2Compute (head_number : Option ℤ) (outputFused : Bool)
    (x_dims y_dims out_dims : List ℤ) :
    Except MatmulErr (List ℤ × List ℤ × List ℤ) :=
  match headNumberCheck head_number with
  | .error e => .error e
  | .ok _ => calculateMatrixDims outputFused x_dims y_dims out_dims

/-! ## `MatMulMKLDNNHandler::Execute`: the batched execution loop

The loop keeps one primitive handle and, per iteration, rebinds the three
data handles to the current pointers, executes, then advances every
pointer by its per-operand offset:

```
for (uint16_t i = 0; i < batch_size_; ++i) {
  src->set_data_handle(x_ptr); … ; matmul_p->execute(astream, args);
  x_ptr += x_offset_; y_ptr += y_offset_; out_ptr += out_offset_;
}
```

`batch_size_`, `x_offset_`, `y_offset_`, `out_offset_` are private
members that *no code in the translation unit ever assigns* — the
constructor leaves them uninitialized, so the model takes them as
unconstrained parameters. -/

/-- One `Execute` loop: returns, in execution order, the pointer triple
bound for each sequential iteration of the single primitive handle. -/
def executeLoop : ℕ → ℕ × ℕ × ℕ → ℕ × ℕ × ℕ → List (ℕ × ℕ × ℕ)
  | 0, _, _ => []
  | n + 1, ptrs, offs =>
      ptrs :: executeLoop n (ptrs.1 + offs.1, ptrs.2.1 + offs.2.1, ptrs.2.2 + offs.2.2) offs

/-! # Theorems -/

/-! ## Chunked traversal equals element-wise traversal -/

theorem numChunks_mul_ge (cgs n : ℕ) (hc : 0 < cgs) : n ≤ numChunks cgs n * cgs := by
  unfold numChunks
  rcases Nat.eq_zero_or_pos n with hn | hn
  · simp [hn]
  · have hd : cgs * ((n + cgs - 1) / cgs) + (n + cgs - 1) % cgs = n + cgs - 1 :=
      Nat.div_add_mod _ _
    have hm : (n + cgs - 1) % cgs < cgs := Nat.mod_lt _ hc
    set q := (n + cgs - 1) / cgs with hq
    have : n + cgs - 1 = cgs * q + (n + cgs - 1) % cgs := hd.symm
    have hg : q * cgs = cgs * q := Nat.mul_comm _ _
    omega

theorem chunked_flatten (cgs : ℕ) (hc : 0 < cgs) (l : List α) :
    (chunked cgs l).flatten = l := by
  unfold chunked
  have key : ∀ k : ℕ,
      ((List.range k).map (fun c => (l.drop (c * cgs)).take cgs)).flatten =
        l.take (k * cgs) := by
    intro k
    induction k with
    | zero => simp
    | succ k ih =>
        rw [List.range_succ, List.map_append, List.flatten_append, ih]
        simp only [List.map_cons, List.map_nil, List.flatten_cons, List.flatten_nil,
          List.append_nil]
        rw [← List.take_add, Nat.succ_mul]
  rw [key]
  exact List.take_of_length_le (numChunks_mul_ge cgs l.length hc)

theorem processChunked_eq_map (cgs : ℕ) (hc : 0 < cgs) (f : α → β) (l : List α) :
    processChunked cgs f l = l.map f := by
  unfold processChunked
  rw [← List.map_flatten, chunked_flatten cgs hc l]

/-! ## C1: the Adam update formula -/

/-- C1: for every element not skipped, the Adam kernel computes, in the
wide precision type, exactly `m := beta1*m + (1-beta1)*g`,
`v := beta2*v + (1-beta2)*g*g`,
`denom := sqrt(v)/sqrt(1-beta2_pow) + epsilon` (epsilon added *outside*
the square root, to `denom`), `p := p - lr*(m/denom)/(1-beta1_pow)`; and
the decoupled-decay mode computes the identical formula after the prior
multiplicative shrink `p := p*(1-lr*weight_decay)`. -/
theorem adam_element_formula (sq : ℚ → ℚ)
    (beta1 beta2 epsilon lr decay beta1_pow beta2_pow p g m v : ℚ) :
    (adamElementUpdate sq false beta1 beta2 epsilon lr decay beta1_pow beta2_pow p g m v =
      (beta1 * m + (1 - beta1) * g,
       beta2 * v + (1 - beta2) * g * g,
       p - lr * ((beta1 * m + (1 - beta1) * g) /
            (sq (beta2 * v + (1 - beta2) * g * g) / sq (1 - beta2_pow) + epsilon)) /
          (1 - beta1_pow)))
    ∧ adamElementUpdate sq true beta1 beta2 epsilon lr decay beta1_pow beta2_pow p g m v =
        adamElementUpdate sq false beta1 beta2 epsilon lr decay beta1_pow beta2_pow
          (p * (1 - lr * decay)) g m v := by
  constructor
  · simp only [adamElementUpdate, if_pos]
    refine Prod.ext rfl (Prod.ext rfl ?_)
    ring
  · simp only [adamElementUpdate]
    rfl

/-! ## C6: decoupled decay with zero weight decay equals plain mode -/

theorem adamElementUpdate_decay_zero (sq : ℚ → ℚ)
    (beta1 beta2 epsilon lr beta1_pow beta2_pow p g m v : ℚ) :
    adamElementUpdate sq true beta1 beta2 epsilon lr 0 beta1_pow beta2_pow p g m v =
      adamElementUpdate sq false beta1 beta2 epsilon lr 0 beta1_pow beta2_pow p g m v := by
  simp [adamElementUpdate]

theorem updElem_decay_zero (sq : ℚ → ℚ) (multi_precision : Bool)
    (beta1 beta2 epsilon lr beta1_pow beta2_pow : ℚ) :
    updElem sq true multi_precision beta1 beta2 epsilon lr 0 beta1_pow beta2_pow =
      updElem sq false multi_precision beta1 beta2 epsilon lr 0 beta1_pow beta2_pow := by
  funext e
  simp only [updElem, adamElementUpdate_decay_zero]

/-- C6: running the Adam update in decoupled-decay mode with
`weight_decay = 0` produces outputs (params, moments, master params,
beta-pow outputs) identical to plain mode, for every input. -/
theorem adam_decay_zero_modes_equal (sq : ℚ → ℚ) (skip_update : Option (List Bool))
    (beta1 beta2 epsilon : ℚ) (cgs : ℕ) (multi_precision use_global_beta_pow : Bool)
    (inp : AdamIn) :
    multiTensorAdam sq skip_update beta1 beta2 epsilon cgs 0
        true multi_precision use_global_beta_pow inp =
      multiTensorAdam sq skip_update beta1 beta2 epsilon cgs 0
        false multi_precision use_global_beta_pow inp := by
  unfold multiTensorAdam
  cases h : resolveSkip skip_update with
  | error e => rfl
  | ok b =>
      cases b with
      | true => rfl
      | false => simp only [updTensor, updElem_decay_zero]

/-! ## C4: `skip_update = true` short-circuits to verbatim copies -/

/-- C4: whenever `skip_update` resolves to true the update is a no-op —
every written output is a verbatim copy of its input (params, moments1,
moments2, and both beta-pow scalars), the copy path returns before any
compute-group partitioning, and applying the update a second time to the
copied outputs returns the same outputs bit-identically. -/
theorem adam_skip_noop (sq : ℚ → ℚ) (beta1 beta2 epsilon : ℚ) (cgs : ℕ)
    (weight_decay : ℚ) (mode multi_precision use_global_beta_pow : Bool)
    (inp : AdamIn) (out : AdamOut)
    (h : multiTensorAdam sq (some [true]) beta1 beta2 epsilon cgs weight_decay
        mode multi_precision use_global_beta_pow inp = .ok out) :
    out = { params_out := inp.params
            moments1_out := inp.moments1
            moments2_out := inp.moments2
            master_param_out := none
            beta1_pow_out := some inp.beta1_pow
            beta2_pow_out := some inp.beta2_pow }
    ∧ multiTensorAdam sq (some [true]) beta1 beta2 epsilon cgs weight_decay
        mode multi_precision use_global_beta_pow
        { params := out.params_out
          grads := inp.grads
          moments1 := out.moments1_out
          moments2 := out.moments2_out
          masterParam := inp.masterParam
          beta1_pow := out.beta1_pow_out.getD 0
          beta2_pow := out.beta2_pow_out.getD 0
          lr := inp.lr } = .ok out := by
  have hout : out = { params_out := inp.params
                      moments1_out := inp.moments1
                      moments2_out := inp.moments2
                      master_param_out := none
                      beta1_pow_out := some inp.beta1_pow
                      beta2_pow_out := some inp.beta2_pow } := by
    have := h.symm
    simpa [multiTensorAdam, resolveSkip] using this
  refine ⟨hout, ?_⟩
  subst hout
  simp [multiTensorAdam, resolveSkip]

/-- Witness for `adam_skip_noop` at a concrete input. -/
theorem adam_skip_noop_witness :
    (⟨[[1, 2]], [[3]], [[4]], none, some 7, some 8⟩ : AdamOut) =
        ⟨[[1, 2]], [[3]], [[4]], none, some 7, some 8⟩
    ∧ multiTensorAdam (fun q => q) (some [true]) (9/10) (999/1000) (1/1000) 4 (1/100)
        false true false
        ⟨[[1, 2]], [[1]], [[3]], [[4]], [[6]], 7, 8, 9⟩ =
      .ok ⟨[[1, 2]], [[3]], [[4]], none, some 7, some 8⟩ :=
  adam_skip_noop (fun q => q) (9/10) (999/1000) (1/1000) 4 (1/100)
    false true false ⟨[[1, 2]], [[1]], [[3]], [[4]], [[6]], 7, 8, 9⟩
    ⟨[[1, 2]], [[3]], [[4]], none, some 7, some 8⟩ rfl

/-! ## C10: the skip path leaves `master_param_out` unwritten -/

/-- C10: when `skip_update` resolves to true and `multi_precision` is
enabled, the short-circuit path copies only params, moments1, moments2
and the two beta-pow scalars; `master_param_out` is left completely
unwritten (`none`) — it is not populated from `master_param`. -/
theorem adam_skip_master_unwritten (sq : ℚ → ℚ) (beta1 beta2 epsilon : ℚ)
    (cgs : ℕ) (weight_decay : ℚ) (mode use_global_beta_pow : Bool) (inp : AdamIn) :
    multiTensorAdam sq (some [true]) beta1 beta2 epsilon cgs weight_decay
        mode true use_global_beta_pow inp =
      .ok { params_out := inp.params
            moments1_out := inp.moments1
            moments2_out := inp.moments2
            master_param_out := none
            beta1_pow_out := some inp.beta1_pow
            beta2_pow_out := some inp.beta2_pow } := by
  simp [multiTensorAdam, resolveSkip]

/-! ## C5: the beta-pow outputs (corrected) -/

/-- C5 counterexample: the claim "whenever `use_global_beta_pow` is
false, the kernel writes `beta1_pow_out = beta1 * beta1_pow_in`" fails
as stated: with `skip_update` resolving true (and
`use_global_beta_pow = false`, `beta1 = 1/2`, `beta1_pow_in = 1`) the
kernel writes `beta1_pow_out = 1`, which differs from
`beta1 * beta1_pow_in = 1/2`. -/
theorem adam_beta_pow_counterexample :
    (multiTensorAdam (fun q => q) (some [true]) (1/2) (1/2) 0 1 0 false false false
        ⟨[[1]], [[0]], [[0]], [[0]], [[0]], 1, 1, 0⟩).map (fun o => o.beta1_pow_out) =
      .ok (some 1)
    ∧ some (1 : ℚ) ≠ some ((1 : ℚ)/2 * 1) := by
  constructor
  · rfl
  · intro h
    exact absurd (Option.some.inj h) (by norm_num)

/-- C5 as amended: *provided `skip_update` resolves to false*, whenever
`use_global_beta_pow` is false the kernel writes
`beta1_pow_out = beta1 * beta1_pow_in` and
`beta2_pow_out = beta2 * beta2_pow_in`, reading the input (pre-update)
beta powers; whenever `use_global_beta_pow` is true the beta-pow outputs
are left untouched.  (On the skip path the outputs are instead verbatim
copies of the inputs.) -/
theorem adam_beta_pow_update (sq : ℚ → ℚ) (skip_update : Option (List Bool))
    (beta1 beta2 epsilon : ℚ) (cgs : ℕ) (weight_decay : ℚ)
    (mode multi_precision : Bool) (inp : AdamIn)
    (h : resolveSkip skip_update = .ok false) :
    ((multiTensorAdam sq skip_update beta1 beta2 epsilon cgs weight_decay
          mode multi_precision false inp).map
        (fun o => (o.beta1_pow_out, o.beta2_pow_out)) =
      .ok (some (beta1 * inp.beta1_pow), some (beta2 * inp.beta2_pow)))
    ∧ ((multiTensorAdam sq skip_update beta1 beta2 epsilon cgs weight_decay
          mode multi_precision true inp).map
        (fun o => (o.beta1_pow_out, o.beta2_pow_out)) = .ok (none, none)) := by
  unfold multiTensorAdam
  rw [h]
  exact ⟨rfl, rfl⟩

/-- Witness for `adam_beta_pow_update` at a concrete input. -/
theorem adam_beta_pow_update_witness :
    resolveSkip none = .ok false
    ∧ (((multiTensorAdam (fun q => q) none (9/10) (999/1000) 0 4 0
            false false false ⟨[[1]], [[2]], [[0]], [[0]], [[0]], 5, 6, 1⟩).map
          (fun o => (o.beta1_pow_out, o.beta2_pow_out)) =
        .ok (some ((9:ℚ)/10 * 5), some ((999:ℚ)/1000 * 6)))
      ∧ ((multiTensorAdam (fun q => q) none (9/10) (999/1000) 0 4 0
            false false true ⟨[[1]], [[2]], [[0]], [[0]], [[0]], 5, 6, 1⟩).map
          (fun o => (o.beta1_pow_out, o.beta2_pow_out)) = .ok (none, none))) :=
  ⟨rfl, adam_beta_pow_update (fun q => q) none (9/10) (999/1000) 0 4 0 false false
    ⟨[[1]], [[2]], [[0]], [[0]], [[0]], 5, 6, 1⟩ rfl⟩

/-! ## C7: guarded element-loop coverage -/

theorem mul_add_lt_cancel {m a b r1 r2 : ℕ} (h1 : r1 < m) (h2 : r2 < m)
    (h : a * m + r1 = b * m + r2) : a = b ∧ r1 = r2 := by
  rcases Nat.lt_trichotomy a b with hab | hab | hab
  · exfalso
    have hs : a + 1 ≤ b := hab
    have hm : (a + 1) * m ≤ b * m := Nat.mul_le_mul_right m hs
    rw [Nat.succ_mul] at hm
    set A := a * m with hA
    set B := b * m with hB
    omega
  · subst hab
    exact ⟨rfl, by omega⟩
  · exfalso
    have hs : b + 1 ≤ a := hab
    have hm : (b + 1) * m ≤ a * m := Nat.mul_le_mul_right m hs
    rw [Nat.succ_mul] at hm
    set A := a * m with hA
    set B := b * m with hB
    omega

theorem accessIdx_decomp (B : ℕ) (hB : 0 < B) (i : ℕ) :
    accessIdx B (i / (PARALLEL_SIZE * B)) (i % (PARALLEL_SIZE * B) % B)
        (i % (PARALLEL_SIZE * B) / B) = i
    ∧ i % (PARALLEL_SIZE * B) % B < B
    ∧ i % (PARALLEL_SIZE * B) / B < PARALLEL_SIZE
    ∧ i / (PARALLEL_SIZE * B) * (PARALLEL_SIZE * B) ≤ i := by
  have hF : 0 < PARALLEL_SIZE * B := by
    have : (0:ℕ) < PARALLEL_SIZE := by decide
    exact Nat.mul_pos this hB
  refine ⟨?_, Nat.mod_lt _ hB, ?_, Nat.div_mul_le_self _ _⟩
  · unfold accessIdx
    have h1 : i % (PARALLEL_SIZE * B) % B + B * (i % (PARALLEL_SIZE * B) / B) =
        i % (PARALLEL_SIZE * B) := Nat.mod_add_div _ _
    have h2 : PARALLEL_SIZE * B * (i / (PARALLEL_SIZE * B)) + i % (PARALLEL_SIZE * B) = i :=
      Nat.div_add_mod _ _
    have h3 : i / (PARALLEL_SIZE * B) * (PARALLEL_SIZE * B) =
        PARALLEL_SIZE * B * (i / (PARALLEL_SIZE * B)) := Nat.mul_comm _ _
    have h4 : i % (PARALLEL_SIZE * B) / B * B = B * (i % (PARALLEL_SIZE * B) / B) :=
      Nat.mul_comm _ _
    omega
  · have : i % (PARALLEL_SIZE * B) < PARALLEL_SIZE * B := Nat.mod_lt _ hF
    exact (Nat.div_lt_iff_lt_mul hB).mpr (by omega)

theorem accessIdx_bound {B tid ii : ℕ} (htid : tid < B) (hii : ii < PARALLEL_SIZE) :
    tid + ii * B < PARALLEL_SIZE * B := by
  have h3 : ii ≤ PARALLEL_SIZE - 1 := by omega
  have : ii * B ≤ (PARALLEL_SIZE - 1) * B := Nat.mul_le_mul_right B h3
  have hP : (PARALLEL_SIZE - 1) * B + B = PARALLEL_SIZE * B := by
    have : PARALLEL_SIZE = 4 := rfl
    rw [this]
    ring
  omega

/-- C7: in the per-compute-group element loop of `CudaKernelFunctor`,
with a positive block width and compute-group size, (a) the guarded
accesses of a block hit exactly the positions below
`min (remaining length) compute_group_size` — positions beyond the
tensor's remaining length or beyond the compute group are neither read
nor written; (b) each such position is hit by exactly one loop state
(exactly once); (c) the compute groups of a tensor of `n` elements
together cover exactly positions `0..n-1`; (d) distinct compute groups
cover disjoint positions — so every in-range element of every tensor is
covered exactly once and the partial final chunk is inert. -/
theorem adam_block_access (B cgs : ℕ) (hB : 0 < B) (hcgs : 0 < cgs) :
    (∀ r, (accessTriples B cgs r).image (fun t => accessIdx B t.1 t.2.1 t.2.2) =
      Finset.range (min r cgs))
    ∧ (∀ r, ∀ a ∈ accessTriples B cgs r, ∀ b ∈ accessTriples B cgs r,
        accessIdx B a.1 a.2.1 a.2.2 = accessIdx B b.1 b.2.1 b.2.2 → a = b)
    ∧ (∀ n, (Finset.range (numChunks cgs n)).biUnion (chunkCover cgs n) = Finset.range n)
    ∧ (∀ n c1 c2, c1 ≠ c2 → Disjoint (chunkCover cgs n c1) (chunkCover cgs n c2)) := by
  refine ⟨?_, ?_, ?_, ?_⟩
  · intro r
    ext i
    simp only [Finset.mem_image, Finset.mem_range, accessTriples, Finset.mem_filter,
      Finset.mem_product, lt_min_iff]
    constructor
    · rintro ⟨t, ⟨⟨-, -, -⟩, -, -, hir, hic⟩, rfl⟩
      exact ⟨hir, hic⟩
    · rintro ⟨hir, hic⟩
      obtain ⟨heq, htid, hii, hle⟩ := accessIdx_decomp B hB i
      refine ⟨⟨i / (PARALLEL_SIZE * B), i % (PARALLEL_SIZE * B) % B,
        i % (PARALLEL_SIZE * B) / B⟩, ⟨⟨?_, ?_, ?_⟩, ?_, ?_, ?_, ?_⟩, heq⟩
      · exact ⟨Nat.lt_of_le_of_lt (Nat.div_le_self _ _) hir,
          Nat.lt_of_le_of_lt (Nat.div_le_self _ _) hic⟩
      · exact htid
      · exact hii
      · exact Nat.lt_of_le_of_lt hle hir
      · exact Nat.lt_of_le_of_lt hle hic
      · rw [heq]; exact hir
      · rw [heq]; exact hic
  · intro r a ha b hb heq
    simp only [accessTriples, Finset.mem_filter, Finset.mem_product,
      Finset.mem_range] at ha hb
    obtain ⟨⟨-, ha2, ha3⟩, -⟩ := ha
    obtain ⟨⟨-, hb2, hb3⟩, -⟩ := hb
    unfold accessIdx at heq
    have ha4 : a.2.1 + a.2.2 * B < PARALLEL_SIZE * B := accessIdx_bound ha2 ha3
    have hb4 : b.2.1 + b.2.2 * B < PARALLEL_SIZE * B := accessIdx_bound hb2 hb3
    have h1 : a.1 * (PARALLEL_SIZE * B) + (a.2.1 + a.2.2 * B) =
        b.1 * (PARALLEL_SIZE * B) + (b.2.1 + b.2.2 * B) := by omega
    obtain ⟨hk, hrem⟩ := mul_add_lt_cancel ha4 hb4 h1
    have h2 : a.2.2 * B + a.2.1 = b.2.2 * B + b.2.1 := by omega
    obtain ⟨hi2, ht2⟩ := mul_add_lt_cancel ha2 hb2 h2
    exact Prod.ext hk (Prod.ext ht2 hi2)
  · intro n
    ext i
    simp only [Finset.mem_biUnion, Finset.mem_range, chunkCover, Finset.mem_image,
      lt_min_iff]
    constructor
    · rintro ⟨c, -, j, ⟨hj1, -⟩, rfl⟩
      omega
    · intro hi
      have h2 : i / cgs * cgs ≤ i := Nat.div_mul_le_self _ _
      have h3 : i % cgs < cgs := Nat.mod_lt _ hcgs
      have h4 : cgs * (i / cgs) + i % cgs = i := Nat.div_add_mod _ _
      have hcomm : cgs * (i / cgs) = i / cgs * cgs := Nat.mul_comm _ _
      have h5 : n ≤ numChunks cgs n * cgs := numChunks_mul_ge cgs n hcgs
      have hc : i / cgs < numChunks cgs n := by
        by_contra hcon
        push_neg at hcon
        have : numChunks cgs n * cgs ≤ i / cgs * cgs := Nat.mul_le_mul_right cgs hcon
        omega
      refine ⟨i / cgs, hc, i % cgs, ⟨?_, h3⟩, ?_⟩
      · omega
      · omega
  · intro n c1 c2 hne
    rw [Finset.disjoint_left]
    rintro x hx1 hx2
    simp only [chunkCover, Finset.mem_image, Finset.mem_range, lt_min_iff] at hx1 hx2
    obtain ⟨j1, ⟨-, hj1⟩, he1⟩ := hx1
    obtain ⟨j2, ⟨-, hj2⟩, he2⟩ := hx2
    have : c1 * cgs + j1 = c2 * cgs + j2 := by rw [he1, he2]
    exact hne (mul_add_lt_cancel hj1 hj2 this).1

/-- Witness for `adam_block_access` at concrete block and group sizes. -/
theorem adam_block_access_witness :
    0 < 2 ∧ 0 < 8
    ∧ ((∀ r, (accessTriples 2 8 r).image (fun t => accessIdx 2 t.1 t.2.1 t.2.2) =
          Finset.range (min r 8))
      ∧ (∀ r, ∀ a ∈ accessTriples 2 8 r, ∀ b ∈ accessTriples 2 8 r,
          accessIdx 2 a.1 a.2.1 a.2.2 = accessIdx 2 b.1 b.2.1 b.2.2 → a = b)
      ∧ (∀ n, (Finset.range (numChunks 8 n)).biUnion (chunkCover 8 n) = Finset.range n)
      ∧ (∀ n c1 c2, c1 ≠ c2 → Disjoint (chunkCover 8 n c1) (chunkCover 8 n c2))) :=
  ⟨by decide, by decide, adam_block_access 2 8 (by decide) (by decide)⟩

/-! ## MatMul: stride selection is logical transposition -/

theorem flatten_entry (A : RMat) (r c : ℕ) (hc : c < A.cols) :
    flatten A (r * A.cols + c) = A.entry r c := by
  have hpos : 0 < A.cols := Nat.lt_of_le_of_lt (Nat.zero_le c) hc
  unfold flatten
  have hdiv : (r * A.cols + c) / A.cols = r := by
    rw [Nat.mul_comm r A.cols, Nat.mul_add_div hpos, Nat.div_eq_of_lt hc, Nat.add_zero]
  have hmod : (r * A.cols + c) % A.cols = c := by
    rw [Nat.mul_comm r A.cols, Nat.mul_add_mod, Nat.mod_eq_of_lt hc]
  rw [hdiv, hmod]

/-- The oneDNN handler's strided single-batch matmul equals the
mathematical product of the logically transposed operands: choosing the
strides `{1, M}` (resp. `{1, K}`) instead of `{K, 1}` (resp. `{N, 1}`)
reads the stored row-major buffer as its transpose.  The side condition
ties the contraction length (taken from the `x` descriptor) to `y`'s
stored row length, which is how the shapes relate in every call site. -/
theorem handlerMatMul_eq (x y : RMat) (tx ty : Bool)
    (h : ty = true → (if tx then x.rows else x.cols) = y.cols) :
    matEqOn (handlerMatMul x tx y ty) (matMul (trB tx x) (trB ty y)) := by
  cases tx <;> cases ty
  · -- tx = false, ty = false
    refine ⟨rfl, rfl, fun i hi j hj => ?_⟩
    show (∑ k ∈ Finset.range x.cols,
        flatten x (i * x.cols + k * 1) * flatten y (k * y.cols + j * 1)) = _
    refine Finset.sum_congr rfl (fun k hk => ?_)
    rw [Finset.mem_range] at hk
    rw [Nat.mul_one, Nat.mul_one, flatten_entry x i k hk, flatten_entry y k j hj]
    rfl
  · -- tx = false, ty = true
    have hKy : x.cols = y.cols := h rfl
    refine ⟨rfl, rfl, fun i hi j hj => ?_⟩
    show (∑ k ∈ Finset.range x.cols,
        flatten x (i * x.cols + k * 1) * flatten y (k * 1 + j * x.cols)) = _
    refine Finset.sum_congr rfl (fun k hk => ?_)
    rw [Finset.mem_range] at hk
    have e2 : k * 1 + j * x.cols = j * y.cols + k := by rw [hKy]; omega
    rw [e2, Nat.mul_one, flatten_entry x i k hk, flatten_entry y j k (hKy ▸ hk)]
    rfl
  · -- tx = true, ty = false
    refine ⟨rfl, rfl, fun i hi j hj => ?_⟩
    show (∑ k ∈ Finset.range x.rows,
        flatten x (i * 1 + k * x.cols) * flatten y (k * y.cols + j * 1)) = _
    refine Finset.sum_congr rfl (fun k hk => ?_)
    rw [Finset.mem_range] at hk
    have hi' : i < x.cols := hi
    have e1 : i * 1 + k * x.cols = k * x.cols + i := by omega
    rw [e1, Nat.mul_one, flatten_entry x k i hi', flatten_entry y k j hj]
    rfl
  · -- tx = true, ty = true
    have hKy : x.rows = y.cols := h rfl
    refine ⟨rfl, rfl, fun i hi j hj => ?_⟩
    show (∑ k ∈ Finset.range x.rows,
        flatten x (i * 1 + k * x.cols) * flatten y (k * 1 + j * x.rows)) = _
    refine Finset.sum_congr rfl (fun k hk => ?_)
    rw [Finset.mem_range] at hk
    have hi' : i < x.cols := hi
    have e1 : i * 1 + k * x.cols = k * x.cols + i := by omega
    have e2 : k * 1 + j * x.rows = j * y.cols + k := by rw [hKy]; omega
    rw [e1, flatten_entry x k i hi', e2, flatten_entry y j k (hKy ▸ hk)]
    rfl

/-! ## C2: the four-case gradient table (corrected) -/

/-- C2 counterexample: in the `(trans_x, trans_y) = (F, T)` case the
claim's cell `dY = Xᵗ · dOut` fails on the code at
`X = [[1,0],[0,0]]`, `Y = 0₂ₓ₂`, `dOut = [[0,1],[0,0]]`: the kernel
computes `dY = dOutᵗ · X = [[0,0],[1,0]]` while `Xᵗ · dOut = [[0,1],[0,0]]`;
moreover with the `dX` output absent the kernel does not skip that
gradient — it dereferences the absent output (modelled `nullOutput`). -/
theorem matmul_grad_counterexample :
    ¬ matEqOn
        (matmulGradDY false true
          ⟨2, 2, fun i j => if i = 0 ∧ j = 0 then 1 else 0⟩
          ⟨2, 2, fun _ _ => 0⟩
          ⟨2, 2, fun i j => if i = 0 ∧ j = 1 then 1 else 0⟩)
        (dySpecFT
          ⟨2, 2, fun i j => if i = 0 ∧ j = 0 then 1 else 0⟩
          ⟨2, 2, fun i j => if i = 0 ∧ j = 1 then 1 else 0⟩)
    ∧ matMulGradCompute none false true
        ⟨2, 2, fun i j => if i = 0 ∧ j = 0 then 1 else 0⟩
        ⟨2, 2, fun _ _ => 0⟩
        ⟨2, 2, fun i j => if i = 0 ∧ j = 1 then 1 else 0⟩ false true =
      .error .nullOutput := by
  constructor
  · rintro ⟨hr, hc, he⟩
    have h10 := he 1 (by decide) 0 (by decide)
    simp only [matmulGradDY, dySpecFT, handlerMatMul, stridedMatMul, matMul, tr,
      flatten] at h10
    norm_num [Finset.sum_range_succ] at h10
  · rfl

/-- C2 as amended: for every forward flag combination, and operands with
the shapes of a forward pass `Out = op(X) · op(Y)` (logical dims
`M×K · K×N`), the gradient kernel computes `dX` exactly as the claim's
table states and `dY` per the table with the `(F,T)` cell *amended* to
`dY = dOutᵗ · X` — all transposition expressed via stride selection
(`handlerMatMul`); a gradient output that is absent is *not* skipped:
both gradient computations are invoked unconditionally and an absent
output is dereferenced (`nullOutput`). -/
theorem matmul_grad_table (tx ty : Bool) (m k n : ℕ) (x y dout : RMat)
    (hxr : x.rows = if tx then k else m) (hxc : x.cols = if tx then m else k)
    (hyr : y.rows = if ty then n else k) (hyc : y.cols = if ty then k else n)
    (hdr : dout.rows = m) (hdc : dout.cols = n) :
    matEqOn (matmulGradDX tx ty x y dout) (dxTable tx ty x y dout)
    ∧ matEqOn (matmulGradDY tx ty x y dout) (dyTableAmended tx ty x y dout)
    ∧ (∀ dxPresent dyPresent : Bool,
        matMulGradCompute none tx ty x y dout dxPresent dyPresent =
          if dxPresent && dyPresent then
            .ok (matmulGradDX tx ty x y dout, matmulGradDY tx ty x y dout)
          else .error .nullOutput) := by
  have hcases : ∀ dxPresent dyPresent : Bool,
      matMulGradCompute none tx ty x y dout dxPresent dyPresent =
        if dxPresent && dyPresent then
          .ok (matmulGradDX tx ty x y dout, matmulGradDY tx ty x y dout)
        else .error .nullOutput := by
    intro dxP dyP
    cases dxP <;> cases dyP <;> rfl
  cases tx <;> cases ty
  · exact ⟨handlerMatMul_eq dout y false true (fun _ => hdc.trans hyc.symm),
      handlerMatMul_eq x dout true false (fun hcon => nomatch hcon), hcases⟩
  · exact ⟨handlerMatMul_eq dout y false false (fun hcon => nomatch hcon),
      handlerMatMul_eq dout x true false (fun hcon => nomatch hcon), hcases⟩
  · exact ⟨handlerMatMul_eq y dout false true (fun _ => hyc.trans hdc.symm),
      handlerMatMul_eq x dout false false (fun hcon => nomatch hcon), hcases⟩
  · exact ⟨handlerMatMul_eq y dout true true (fun _ => hyr.trans hdc.symm),
      handlerMatMul_eq dout x true true (fun _ => hdr.trans hxc.symm), hcases⟩

/-- Witness for `matmul_grad_table` at concrete shapes. -/
theorem matmul_grad_table_witness :
    ((⟨1, 2, fun _ _ => 1⟩ : RMat).rows = if false then 2 else 1)
    ∧ ((⟨1, 2, fun _ _ => 1⟩ : RMat).cols = if false then 1 else 2)
    ∧ ((⟨2, 3, fun _ _ => 1⟩ : RMat).rows = if false then 3 else 2)
    ∧ ((⟨2, 3, fun _ _ => 1⟩ : RMat).cols = if false then 2 else 3)
    ∧ ((⟨1, 3, fun _ _ => 1⟩ : RMat).rows = 1)
    ∧ ((⟨1, 3, fun _ _ => 1⟩ : RMat).cols = 3)
    ∧ (matEqOn
        (matmulGradDX false false ⟨1, 2, fun _ _ => 1⟩ ⟨2, 3, fun _ _ => 1⟩
          ⟨1, 3, fun _ _ => 1⟩)
        (dxTable false false ⟨1, 2, fun _ _ => 1⟩ ⟨2, 3, fun _ _ => 1⟩
          ⟨1, 3, fun _ _ => 1⟩)
      ∧ matEqOn
        (matmulGradDY false false ⟨1, 2, fun _ _ => 1⟩ ⟨2, 3, fun _ _ => 1⟩
          ⟨1, 3, fun _ _ => 1⟩)
        (dyTableAmended false false ⟨1, 2, fun _ _ => 1⟩ ⟨2, 3, fun _ _ => 1⟩
          ⟨1, 3, fun _ _ => 1⟩)
      ∧ (∀ dxPresent dyPresent : Bool,
          matMulGradCompute none false false ⟨1, 2, fun _ _ => 1⟩
              ⟨2, 3, fun _ _ => 1⟩ ⟨1, 3, fun _ _ => 1⟩ dxPresent dyPresent =
            if dxPresent && dyPresent then
              .ok (matmulGradDX false false ⟨1, 2, fun _ _ => 1⟩
                  ⟨2, 3, fun _ _ => 1⟩ ⟨1, 3, fun _ _ => 1⟩,
                matmulGradDY false false ⟨1, 2, fun _ _ => 1⟩
                  ⟨2, 3, fun _ _ => 1⟩ ⟨1, 3, fun _ _ => 1⟩)
            else .error .nullOutput)) :=
  ⟨rfl, rfl, rfl, rfl, rfl, rfl,
    matmul_grad_table false false 1 2 3 ⟨1, 2, fun _ _ => 1⟩ ⟨2, 3, fun _ _ => 1⟩
      ⟨1, 3, fun _ _ => 1⟩ rfl rfl rfl rfl rfl rfl⟩

/-! ## C3: broadcast validation and output resize (corrected) -/

theorem getD_set_self (l : List ℤ) (i : ℕ) (v d : ℤ) (h : i < l.length) :
    (l.set i v).getD i d = v := by
  rw [List.getD_eq_getElem?_getD, List.getElem?_set_self', List.getElem?_eq_getElem h]
  rfl

theorem getD_set_ne (l : List ℤ) {i j : ℕ} (v d : ℤ) (h : i ≠ j) :
    (l.set i v).getD j d = l.getD j d := by
  rw [List.getD_eq_getElem?_getD, List.getElem?_set_ne h, ← List.getD_eq_getElem?_getD]

theorem rbAux_error (xbd ybd : List ℤ) :
    ∀ (fuel pos : ℕ) (outd : List ℤ) (m : ℕ),
      pos ≤ m → m < pos + fuel → BroadcastIncompatAt xbd ybd m →
      (∀ j, pos ≤ j → j < m → ¬ BroadcastIncompatAt xbd ybd j) →
      rbAux xbd ybd pos fuel outd =
        .error (.broadcast m (xbd.getD m 1) (ybd.getD m 1)) := by
  intro fuel
  induction fuel with
  | zero => intro pos outd m h1 h2 _ _; omega
  | succ fuel ih =>
      intro pos outd m h1 h2 hm hleast
      by_cases hpos : pos = m
      · subst hpos
        unfold BroadcastIncompatAt at hm
        simp only [rbAux]
        rw [if_neg hm]
      · have hlt : pos < m := lt_of_le_of_ne h1 hpos
        have hcompat := hleast pos le_rfl hlt
        unfold BroadcastIncompatAt at hcompat
        rw [not_not] at hcompat
        simp only [rbAux]
        rw [if_pos hcompat]
        exact ih (pos + 1) _ m (by omega) (by omega) hm
          (fun j hj1 hj2 => hleast j (by omega) hj2)

theorem rbAux_ok (xbd ybd : List ℤ) :
    ∀ (fuel pos : ℕ) (outd : List ℤ),
      (∀ j, pos ≤ j → j < pos + fuel → ¬ BroadcastIncompatAt xbd ybd j) →
      ∃ od, rbAux xbd ybd pos fuel outd = .ok od
        ∧ od.length = outd.length
        ∧ (∀ i, pos ≤ i → i < pos + fuel → i < outd.length →
            od.getD i 1 = max (xbd.getD i 1) (ybd.getD i 1))
        ∧ (∀ i, i < pos ∨ pos + fuel ≤ i → od.getD i 1 = outd.getD i 1) := by
  intro fuel
  induction fuel with
  | zero =>
      intro pos outd _
      exact ⟨outd, rfl, rfl, fun i h1 h2 _ => by omega, fun i _ => rfl⟩
  | succ fuel ih =>
      intro pos outd hcomp
      have hc0 := hcomp pos le_rfl (by omega)
      unfold BroadcastIncompatAt at hc0
      rw [not_not] at hc0
      obtain ⟨od, hod, hlen, hwin, hout⟩ :=
        ih (pos + 1) (outd.set pos (max (xbd.getD pos 1) (ybd.getD pos 1)))
          (fun j hj1 hj2 => hcomp j (by omega) (by omega))
      refine ⟨od, ?_, ?_, ?_, ?_⟩
      · simp only [rbAux]
        rw [if_pos hc0]
        exact hod
      · rw [hlen, List.length_set]
      · intro i h1 h2 h3
        by_cases hip : i = pos
        · subst hip
          rw [hout i (Or.inl (by omega)), getD_set_self _ _ _ _ h3]
        · exact hwin i (by omega) (by omega) (by rw [List.length_set]; exact h3)
      · intro i hi
        have hi' : i < pos + 1 ∨ pos + 1 + fuel ≤ i := by omega
        have hne : pos ≠ i := by omega
        rw [hout i hi', getD_set_ne _ _ _ hne]

/-- C3 counterexample: the claim "incompatible right-aligned batch dims
make the forward kernel fail" is false as stated: with output-fusion
attributes set (`outputFused = true`), `x = [3,2,2]`, `y = [2,2,2]`
(position 0 holds 3 vs 2, neither 1 — incompatible), the kernel performs
no validation, returns success, and leaves `out_dims = [9,2,2]`
untouched (not even resized to the element-wise max). -/
theorem matmul_broadcast_counterexample :
    BroadcastIncompatAt (buildXbd 3 [3, 2, 2]) (buildYbd 3 [2, 2, 2]) 0
    ∧ matMulV2Compute none true [3, 2, 2] [2, 2, 2] [9, 2, 2] =
        .ok ([3, 2, 2], [2, 2, 2], [9, 2, 2]) := by
  constructor
  · decide
  · rfl

/-- C3 as amended: *when no output-fusion attributes are set and both
inputs have rank > 2* (note incompatibility can only arise then, since a
rank ≤ 2 operand contributes only 1s to the leading positions, but the
code also skips validation for fused output or low rank): (a) if some
leading position is incompatible, the kernel fails with a
shape-mismatch error naming the first offending position and both sizes,
and `out` is not written; (b) if all leading positions are compatible,
the kernel succeeds and `out`'s leading dims become the element-wise max
of the two broadcast dimension vectors, trailing dims unchanged; (c) with
output fusion set, or either input of rank ≤ 2, validation and resize are
both skipped and `out` is returned untouched. -/
theorem matmul_calculate_dims (outputFused : Bool) (x y outd : List ℤ)
    (houtd : outd.length = bdRank x y) :
    (∀ m, BroadcastIncompatAt (buildXbd (bdRank x y) x) (buildYbd (bdRank x y) y) m →
        m < bdRank x y - 2 → outputFused = false → 2 < x.length → 2 < y.length →
        ∃ i, i < bdRank x y - 2
          ∧ BroadcastIncompatAt (buildXbd (bdRank x y) x) (buildYbd (bdRank x y) y) i
          ∧ calculateMatrixDims outputFused x y outd =
              .error (.broadcast i ((buildXbd (bdRank x y) x).getD i 1)
                ((buildYbd (bdRank x y) y).getD i 1)))
    ∧ ((∀ i, i < bdRank x y - 2 →
          ¬ BroadcastIncompatAt (buildXbd (bdRank x y) x) (buildYbd (bdRank x y) y) i) →
        outputFused = false → 2 < x.length → 2 < y.length →
        ∃ od, calculateMatrixDims outputFused x y outd =
            .ok (buildXbd (bdRank x y) x, buildYbd (bdRank x y) y, od)
          ∧ od.length = outd.length
          ∧ (∀ i, i < bdRank x y - 2 →
              od.getD i 1 = max ((buildXbd (bdRank x y) x).getD i 1)
                ((buildYbd (bdRank x y) y).getD i 1))
          ∧ (∀ i, bdRank x y - 2 ≤ i → od.getD i 1 = outd.getD i 1))
    ∧ (outputFused = true ∨ x.length ≤ 2 ∨ y.length ≤ 2 →
        calculateMatrixDims outputFused x y outd =
          .ok (buildXbd (bdRank x y) x, buildYbd (bdRank x y) y, outd)) := by
  refine ⟨?_, ?_, ?_⟩
  · intro m hm hmlt hf hx hy
    subst hf
    have hP : ∃ i, BroadcastIncompatAt (buildXbd (bdRank x y) x)
        (buildYbd (bdRank x y) y) i := ⟨m, hm⟩
    refine ⟨Nat.find hP, ?_, Nat.find_spec hP, ?_⟩
    · exact lt_of_le_of_lt (Nat.find_min' hP hm) hmlt
    · unfold calculateMatrixDims
      rw [if_pos ⟨by simp, hx, hy⟩]
      rw [rbAux_error _ _ _ _ _ (Nat.find hP) (Nat.zero_le _)
        (by have := Nat.find_min' hP hm; omega)
        (Nat.find_spec hP)
        (fun j _ hj => Nat.find_min hP hj)]
  · intro hcomp hf hx hy
    subst hf
    obtain ⟨od, hod, hlen, hwin, hout⟩ :=
      rbAux_ok (buildXbd (bdRank x y) x) (buildYbd (bdRank x y) y)
        (bdRank x y - 2) 0 outd (fun j _ hj => hcomp j (by omega))
    refine ⟨od, ?_, hlen, ?_, ?_⟩
    · unfold calculateMatrixDims
      rw [if_pos ⟨by simp, hx, hy⟩, hod]
    · intro i hi
      exact hwin i (Nat.zero_le _) (by omega) (by omega)
    · intro i hi
      exact hout i (Or.inr (by omega))
  · intro hskip
    unfold calculateMatrixDims
    rw [if_neg]
    rintro ⟨hnf, hx2, hy2⟩
    rcases hskip with h | h | h
    · exact hnf (by simp [h])
    · omega
    · omega

/-- Witness for `matmul_calculate_dims` at concrete shapes. -/
theorem matmul_calculate_dims_witness :
    ([9, 2, 2] : List ℤ).length = bdRank [2, 2, 2] [1, 2, 2]
    ∧ ((∀ m, BroadcastIncompatAt (buildXbd (bdRank [2, 2, 2] [1, 2, 2]) [2, 2, 2])
          (buildYbd (bdRank [2, 2, 2] [1, 2, 2]) [1, 2, 2]) m →
        m < bdRank [2, 2, 2] [1, 2, 2] - 2 → false = false →
        2 < ([2, 2, 2] : List ℤ).length → 2 < ([1, 2, 2] : List ℤ).length →
        ∃ i, i < bdRank [2, 2, 2] [1, 2, 2] - 2
          ∧ BroadcastIncompatAt (buildXbd (bdRank [2, 2, 2] [1, 2, 2]) [2, 2, 2])
              (buildYbd (bdRank [2, 2, 2] [1, 2, 2]) [1, 2, 2]) i
          ∧ calculateMatrixDims false [2, 2, 2] [1, 2, 2] [9, 2, 2] =
              .error (.broadcast i
                ((buildXbd (bdRank [2, 2, 2] [1, 2, 2]) [2, 2, 2]).getD i 1)
                ((buildYbd (bdRank [2, 2, 2] [1, 2, 2]) [1, 2, 2]).getD i 1)))
      ∧ ((∀ i, i < bdRank [2, 2, 2] [1, 2, 2] - 2 →
            ¬ BroadcastIncompatAt (buildXbd (bdRank [2, 2, 2] [1, 2, 2]) [2, 2, 2])
              (buildYbd (bdRank [2, 2, 2] [1, 2, 2]) [1, 2, 2]) i) →
          false = false → 2 < ([2, 2, 2] : List ℤ).length →
          2 < ([1, 2, 2] : List ℤ).length →
          ∃ od, calculateMatrixDims false [2, 2, 2] [1, 2, 2] [9, 2, 2] =
              .ok (buildXbd (bdRank [2, 2, 2] [1, 2, 2]) [2, 2, 2],
                buildYbd (bdRank [2, 2, 2] [1, 2, 2]) [1, 2, 2], od)
            ∧ od.length = ([9, 2, 2] : List ℤ).length
            ∧ (∀ i, i < bdRank [2, 2, 2] [1, 2, 2] - 2 →
                od.getD i 1 = max
                  ((buildXbd (bdRank [2, 2, 2] [1, 2, 2]) [2, 2, 2]).getD i 1)
                  ((buildYbd (bdRank [2, 2, 2] [1, 2, 2]) [1, 2, 2]).getD i 1))
            ∧ (∀ i, bdRank [2, 2, 2] [1, 2, 2] - 2 ≤ i →
                od.getD i 1 = ([9, 2, 2] : List ℤ).getD i 1))
      ∧ (false = true ∨ ([2, 2, 2] : List ℤ).length ≤ 2 ∨
            ([1, 2, 2] : List ℤ).length ≤ 2 →
          calculateMatrixDims false [2, 2, 2] [1, 2, 2] [9, 2, 2] =
            .ok (buildXbd (bdRank [2, 2, 2] [1, 2, 2]) [2, 2, 2],
              buildYbd (bdRank [2, 2, 2] [1, 2, 2]) [1, 2, 2], [9, 2, 2]))) :=
  ⟨by decide, matmul_calculate_dims false [2, 2, 2] [1, 2, 2] [9, 2, 2] (by decide)⟩

/-! ## C8: the batched execution loop of `MatMulMKLDNNHandler::Execute` -/

/-- C8 (code bug): the loop's structure is sequential on the one
primitive handle, but the iteration count and the per-operand pointer
advances are the *uninitialized* members `batch_size_`, `x_offset_`,
`y_offset_`, `out_offset_` — never assigned anywhere in the translation
unit — and every operand's pointer is advanced by its offset on every
iteration with no condition on that operand's batch size.  Evaluated
here with the indeterminate members taking `batch_size_ = 2` and offsets
`(5, 0, 0)`: a broadcast (batch-size-1) `x` operand would still have its
base pointer rebound from 100 to 105; in general iteration `i` binds
`base + i * offset` for each operand unconditionally. -/
theorem execute_loop_uninitialized :
    executeLoop 2 (100, 200, 300) (5, 0, 0) = [(100, 200, 300), (105, 200, 300)]
    ∧ ∀ off xp yp op : ℕ,
        executeLoop 2 (xp, yp, op) (off, 0, 0) = [(xp, yp, op), (xp + off, yp, op)] := by
  exact ⟨rfl, fun off xp yp op => rfl⟩

/-! ## C9: `head_number ≠ 1` is rejected at entry by both kernels -/

/-- C9: any invocation of the matmul forward or gradient kernel carrying
a `head_number` attribute other than 1 fails immediately at entry with
the error "oneDNN matmul doesn't support multiple heads. Expected
head_number=1. But received `head_number` is %d" reporting the received
value; the error result carries no outputs, so no computation or output
mutation occurs. -/
theorem head_number_rejected (v : ℤ) (hv : v ≠ 1) :
    (∀ (outputFused : Bool) (x_dims y_dims out_dims : List ℤ),
      matMulV2Compute (some v) outputFused x_dims y_dims out_dims =
        .error (.headNumber v))
    ∧ (∀ (tx ty : Bool) (x y dout : RMat) (dxPresent dyPresent : Bool),
      matMulGradCompute (some v) tx ty x y dout dxPresent dyPresent =
        .error (.headNumber v)) := by
  constructor
  · intro outputFused x_dims y_dims out_dims
    simp only [matMulV2Compute, headNumberCheck, if_neg hv]
  · intro tx ty x y dout dxPresent dyPresent
    simp only [matMulGradCompute, headNumberCheck, if_neg hv]

/-- Witness for `head_number_rejected` at `head_number = 2`. -/
theorem head_number_rejected_witness :
    (2 : ℤ) ≠ 1
    ∧ ((∀ (outputFused : Bool) (x_dims y_dims out_dims : List ℤ),
        matMulV2Compute (some 2) outputFused x_dims y_dims out_dims =
          .error (.headNumber 2))
      ∧ (∀ (tx ty : Bool) (x y dout : RMat) (dxPresent dyPresent : Bool),
        matMulGradCompute (some 2) tx ty x y dout dxPresent dyPresent =
          .error (.headNumber 2))) :=
  ⟨by decide, head_number_rejected 2 (by decide)⟩

end Spec2Proof
